import Mathlib

/-!
Shallow embedding of the tsplus-gen classification engine
(src/Parser/index.ts and src/Serializer definitions in src/Fs/index.ts,
final versions) together with proofs about the classifier, the
namespace/target-name resolution, and the definition aggregator.

Source files are TypeScript; the embedding models:
  * strings as Lean `String` (all operations implemented structurally
    over `String.data` so that concrete evaluation works),
  * `Maybe` (tsplus stdlib) as `Option`,
  * the TypeScript type-checker objects (`Ts.Type`, `Ts.Signature`,
    `Ts.Symbol`) as inductive trees carrying exactly the attributes the
    classifier inspects,
  * source files by their module path (the string produced by
    `getModuleFromSourceFile`), since every use of a source file in the
    classifier goes through that function first.
-/

namespace TG

/-- Boolean string test: `pat` is a prefix of `s` (JS `s.startsWith(pat)`). -/
def strStartsWith (s pat : String) : Bool :=
  pat.data.isPrefixOf s.data

/-- Boolean string test: `pat` is a suffix of `s` (JS `s.endsWith(pat)`). -/
def strEndsWith (s pat : String) : Bool :=
  pat.data.isSuffixOf s.data

/-- Characters of `s` strictly before the first occurrence of the pattern
`pat`; the whole of `s` when `pat` does not occur.  This is JS
`s.replace(/pat.*$/, "")` for a literal pattern `pat`. -/
def takeBeforeSub (pat : List Char) : List Char → List Char
  | [] => []
  | c :: rest =>
    if pat.isPrefixOf (c :: rest) then []
    else c :: takeBeforeSub pat rest

/-- Drop a single leading occurrence of the character `c`
(JS `s.replace(/^c/, "")`). -/
def dropLeadChar (c : Char) : List Char → List Char
  | [] => []
  | d :: rest => if d = c then rest else d :: rest

/-- Drop the pattern `pat` when it ends the string
(JS `s.replace(/pat$/, "")`). -/
def dropEndSub (pat : List Char) (s : List Char) : List Char :=
  if pat.isSuffixOf s then s.take (s.length - pat.length) else s

/-- Replace the first occurrence of `/_?(src|dist)/` with `/`
(JS `s.replace(/\/_?(src|dist)\//, "/")`). -/
def replaceSrcDist : List Char → List Char
  | [] => []
  | c :: rest =>
    if c = '/' && "_src/".data.isPrefixOf rest then '/' :: rest.drop 5
    else if c = '/' && "src/".data.isPrefixOf rest then '/' :: rest.drop 4
    else if c = '/' && "_dist/".data.isPrefixOf rest then '/' :: rest.drop 6
    else if c = '/' && "dist/".data.isPrefixOf rest then '/' :: rest.drop 5
    else c :: replaceSrcDist rest

/-- Node `Path.basename`, restricted to its behaviour on paths without a
trailing slash (namespace strings never end in a slash): the last
`/`-separated segment. -/
def basename (s : String) : String :=
  String.mk ((s.data.reverse.takeWhile (fun c => c != '/')).reverse)

/-- Namespace alias table lookup: `namespaceAliases[ns] ?? ns`. -/
def maybeRenameNamespace (aliases : List (String × String)) (ns : String) : String :=
  ((aliases.find? (fun p => p.1 == ns)).map (fun p => p.2)).getD ns

/-- Parser `namespaceFromModule` (src/Parser/index.ts lines 569-576):
strip everything from `/definition/` on, a leading `@`, a trailing
`/index`, rewrite the first `/_?(src|dist)/` to `/`, then apply the
namespace alias table. -/
def namespaceFromModule (aliases : List (String × String)) (path : String) : String :=
  maybeRenameNamespace aliases (String.mk
    (replaceSrcDist
      (dropEndSub "/index".data
        (dropLeadChar '@'
          (takeBeforeSub "/definition/".data path.data)))))

/-- Parser `getTargetString` (src/Parser/index.ts lines 604-622), with the
source file represented by its module path (`getNamespaceFromSourceFile`
is `namespaceFromModule` composed with `getModuleFromSourceFile`). -/
def getTargetString (aliases : List (String × String)) (modulePath name : String) : String :=
  let ns := namespaceFromModule aliases modulePath
  let baseName := basename ns
  let namespaceWithoutSlashes := String.mk (ns.data.filter (fun c => c != '/'))
  if strStartsWith ns "typescript/" then name
  else if name == baseName then ns
  else if strStartsWith name baseName then
    maybeRenameNamespace aliases ns ++ "." ++ String.mk (name.data.drop baseName.data.length)
  else if strEndsWith namespaceWithoutSlashes name then ns
  else maybeRenameNamespace aliases ns ++ "." ++ name

/-- Stable insertion of `a` into a list: `a` is placed before the first
element `b` for which `lt b a` fails (`lt b a` meaning `b` must sort
strictly before `a`). -/
def insertBy (lt : α → α → Bool) (a : α) : List α → List α
  | [] => [a]
  | b :: bs => if lt b a then b :: insertBy lt a bs else a :: b :: bs

/-- Stable sort, modelling JS `Array.prototype.sort` (which is stable)
with a comparator inducing the strict order `lt`. -/
def sortBy (lt : α → α → Bool) : List α → List α
  | [] => []
  | a :: as => insertBy lt a (sortBy lt as)

/-- TypeScript node kinds that the classifier distinguishes when it asks
whether a symbol's declarations include a class, interface or type-alias
declaration (`Ts.isClassDeclaration` and friends);  `klass` spells the
kind Lean reserves the word `class` for. -/
inductive TsNodeKind where
  | klass
  | interfaceNode
  | typeAliasNode
  | otherNode
deriving DecidableEq, Repr

/-- One declaration of a TypeScript symbol: its node kind and the module
path of the source file it sits in. -/
structure TsDecl where
  kind : TsNodeKind
  modulePath : String
deriving DecidableEq, Repr

/-- TypeScript symbol as the classifier sees it: a name and the optional
declaration list (`Symbol.getDeclarations()` yields `undefined` or a
non-empty array; the model tolerates `[]` and treats it like absence
where the source would crash). -/
structure TsSymbol where
  name : String
  decls : Option (List TsDecl)
deriving DecidableEq, Repr

mutual
/-- TypeScript type as the classifier sees it: `symbol`, `aliasSymbol`,
the `isTypeParameter()` answer, the `flags` bitfield, and the call
signatures. -/
inductive TsType : Type where
  | mk (symbol : Option TsSymbol) (aliasSymbol : Option TsSymbol)
       (isTypeParam : Bool) (flags : Nat)
       (callSignatures : List TsSignature) : TsType

/-- TypeScript call signature: parameters (name and the type obtained by
`getSymbolType` on the parameter symbol) and the return type. -/
inductive TsSignature : Type where
  | mk (params : List (String × TsType)) (returnType : TsType) : TsSignature
end

def TsType.symbol : TsType → Option TsSymbol
  | .mk s _ _ _ _ => s

def TsType.aliasSymbol : TsType → Option TsSymbol
  | .mk _ a _ _ _ => a

def TsType.isTypeParam : TsType → Bool
  | .mk _ _ i _ _ => i

def TsType.flags : TsType → Nat
  | .mk _ _ _ f _ => f

def TsType.callSignatures : TsType → List TsSignature
  | .mk _ _ _ _ cs => cs

def TsSignature.params : TsSignature → List (String × TsType)
  | .mk ps _ => ps

def TsSignature.returnType : TsSignature → TsType
  | .mk _ rt => rt

/-- Parser `nonFunctionReturnType` (src/Parser/index.ts lines 435-453):
true when the type has no symbol, or is declared as a
class/interface/type-alias, or has no call signatures. -/
def nonFunctionReturnType (t : TsType) : Bool :=
  let symbol := t.aliasSymbol <|> t.symbol
  let isType : Option Bool :=
    (symbol.bind (fun s => s.decls)).map
      (List.any · (fun d =>
        d.kind = TsNodeKind.klass ∨ d.kind = TsNodeKind.typeAliasNode ∨
          d.kind = TsNodeKind.interfaceNode))
  match symbol with
  | none => true
  | some _ =>
    if isType = some true then true
    else if t.callSignatures.length = 0 then true
    else false

/-- Parser `getSourceFileFromSymbol` (lines 552-557), with source files
represented by module paths. -/
def getSourceFileFromSymbol (s : TsSymbol) : Option String :=
  (s.decls.bind (fun ds => ds.head?)).map (fun d => d.modulePath)

/-- Result record of Parser `getTypeInformation`. -/
structure TypeInfo where
  type : TsType
  name : String
  typeName : String

/-- Parser `getTypeInformation` (lines 584-599): resolve
`aliasSymbol ?? symbol`, reject type parameters, and compute the
canonical `typeName` from the symbol's declaring file and name. -/
def getTypeInformation (aliases : List (String × String)) (t : TsType) : Option TypeInfo :=
  ((t.aliasSymbol <|> t.symbol).bind (fun symbol =>
    if t.isTypeParam then none
    else
      (getSourceFileFromSymbol symbol).map (fun sourceFile =>
        { type := t, name := symbol.name
          typeName := getTargetString aliases sourceFile symbol.name })))

/-- Parser `getFinalReturnType` (lines 409-417): unwind curried returns
by repeatedly taking the first call signature of the return type, until
`nonFunctionReturnType` holds.  In the tree model of types this is a
structurally terminating recursion; the cyclic-graph behaviour of the
source is studied separately with `unwindFuel` below. -/
def getFinalReturnType : TsSignature → TsType
  | .mk _ rt =>
    if nonFunctionReturnType rt then rt
    else
      match rt with
      | .mk _ _ _ _ [] => rt
      | .mk _ _ _ _ (s :: _) => getFinalReturnType s

/-- Parser `getFinalReturnTypeName` (lines 419-425). -/
def getFinalReturnTypeName (aliases : List (String × String)) (sig : TsSignature) :
    Option String :=
  (getTypeInformation aliases (getFinalReturnType sig)).map (fun a => a.typeName)

/-- Per-module-prefix configuration (`ModuleConfig` in src/Parser/index.ts
lines 314-319): configured static name prefixes and fluent namespaces. -/
structure ModuleConfig where
  staticPrefixes : List String
  fluentNamespaces : List String
deriving DecidableEq, Repr

/-- Static inputs of one parser run: the namespace alias table, the
per-module-prefix configuration record (`Object.entries` order), and the
export table of the program (module path to exported symbol names,
standing for `exportsFromSourceFile`). -/
structure Env where
  aliases : List (String × String)
  moduleConfig : List (String × ModuleConfig)
  exports : List (String × List String)
deriving DecidableEq, Repr

/-- Symbol names exported from the source file with the given module
path (`exportsFromSourceFile`, compared by symbol name). -/
def envExports (env : Env) (modulePath : String) : List String :=
  (((env.exports.find? (fun p => p.1 == modulePath)).map (fun p => p.2))).getD []

/-- Parser `findModuleConfig` (lines 379-385): filter the configured
module prefixes down to those the module starts with, stable-sort by
descending prefix length, and take the first. -/
def findModuleConfig (env : Env) (module : String) : Option ModuleConfig :=
  ((sortBy (fun p q => decide (q.1.length < p.1.length))
    (env.moduleConfig.filter (fun p => strStartsWith module p.1))).head?).map
    (fun p => p.2)

/-- Parser `hasStaticPrefix` (lines 455-462): the module's configuration
exists and one of its static name prefixes starts the symbol name. -/
def hasStaticPrefixOn (env : Env) (module name : String) : Bool :=
  (Option.filter
    (fun c => c.staticPrefixes.any (fun p => strStartsWith name p))
    (findModuleConfig env module)).isSome

/-- Parser `isExportedInFluentNamespace` (lines 493-524). -/
def isExportedInFluentNamespace (env : Env) (module : String) (type : TsType)
    (typeName : String) : Bool :=
  match type.aliasSymbol <|> type.symbol with
  | none => false
  | some symbol =>
    if (Option.filter
        (fun c => c.fluentNamespaces.any (fun ns => strStartsWith typeName ns))
        (findModuleConfig env module)).isNone then false
    else if typeName == symbol.name then true
    else
      ((symbol.decls.map
        (List.any · (fun d => (envExports env d.modulePath).contains symbol.name))).getD
        false)

/-- Parser `getFirstParamType` (lines 427-433): the first parameter's
type, required to be non-callable, with its type information. -/
def getFirstParamType (env : Env) (sig : TsSignature) : Option TypeInfo :=
  ((Option.filter nonFunctionReturnType
    ((sig.params.head?).map (fun p => p.2))).bind
    (getTypeInformation env.aliases))

/-- Parser `fluentTypeInformation` (lines 464-491): at least one
parameter, an eligible non-callable first parameter, and a final
return type whose name either is unresolvable or matches the first
parameter's. -/
def fluentTypeInformation (env : Env) (module : String) (sig : TsSignature) :
    Option (TypeInfo × Option TypeInfo) :=
  Option.filter
    (fun pair =>
      match pair.2 with
      | none => true
      | some a => a.typeName == pair.1.typeName)
    (if sig.params.length ≥ 1 then
      (Option.filter
        (fun a => isExportedInFluentNamespace env module a.type a.typeName)
        (getFirstParamType env sig)).map
        (fun firstParamType =>
          (firstParamType, getTypeInformation env.aliases (getFinalReturnType sig)))
    else none)

/-- Parser `getterTypeInformation` (lines 526-542): exactly one
parameter, a non-callable return type, and an eligible non-callable
first parameter. -/
def getterTypeInformation (env : Env) (module : String) (sig : TsSignature) :
    Option TypeInfo :=
  if sig.params.length = 1 && nonFunctionReturnType sig.returnType then
    Option.filter
      (fun a => isExportedInFluentNamespace env module a.type a.typeName)
      (getFirstParamType env sig)
  else none

/-- Parser `isPipeableSignature` (lines 544-545). -/
def isPipeableSignature (env : Env) (module : String) (sig : TsSignature) : Bool :=
  (getterTypeInformation env module sig).isSome

/-- Parser `pipeableSignature` (lines 547-550): the first call signature
of the type that passes the getter test. -/
def pipeableSignature (env : Env) (module : String) (type : TsType) :
    Option TsSignature :=
  type.callSignatures.find? (isPipeableSignature env module)

/-- Declaration kinds (the `kind` strings attached by `filterExports`);
`klass` spells the kind Lean reserves the word `class` for. -/
inductive DefKind where
  | const
  | function
  | interface
  | klass
  | type
deriving DecidableEq, Repr

/-- An exported declaration after `exportedWithDeclarations` and
`filterExports`: symbol name, module, canonical typeName, kind, type. -/
structure ExportedDecl where
  symbolName : String
  module : String
  typeName : String
  kind : DefKind
  type : TsType

/-- A callable (lines 685-694): an exported const/function whose type is
function-like, together with its first call signature and that
signature's return type. -/
structure Callable where
  symbolName : String
  module : String
  typeName : String
  kind : DefKind
  type : TsType
  callSignature : TsSignature
  returnType : TsType

/-- A classified declaration as the parser streams emit it: the spread
`{...a, typeName, outputTypeName?}` restricted to the fields the
serializer reads. -/
structure Classified where
  symbolName : String
  module : String
  typeName : String
  kind : DefKind
  outputTypeName : Option String
deriving DecidableEq, Repr

/-- Construction of the callable pool (lines 685-694): keep the
function-like consts/functions and pair them with their first call
signature (which exists because `nonFunctionReturnType` failed). -/
def mkCallables (decls : List ExportedDecl) : List Callable :=
  (decls.filter (fun a => !nonFunctionReturnType a.type)).filterMap (fun a =>
    (a.type.callSignatures.head?).map (fun callSignature =>
      { symbolName := a.symbolName, module := a.module, typeName := a.typeName,
        kind := a.kind, type := a.type, callSignature := callSignature,
        returnType := callSignature.returnType }))

/-- The `Ts.TypeFlags.Boolean` bit. -/
def tsBooleanFlag : Nat := 16

/-- The static-by-name classifier (lines 735-737). -/
def staticByNameF (env : Env) (a : Callable) : Option Callable :=
  if hasStaticPrefixOn env a.module a.symbolName then some a else none

/-- The getter classifier (lines 739-753): getter-shaped, with a
non-boolean return type. -/
def gettersF (env : Env) (a : Callable) : Option Classified :=
  ((Option.filter
    (fun _ => decide (Nat.land a.callSignature.returnType.flags tsBooleanFlag = 0))
    (getterTypeInformation env a.module a.callSignature)).map
    (fun self =>
      { symbolName := a.symbolName, module := a.module, kind := a.kind,
        typeName := self.typeName,
        outputTypeName := getFinalReturnTypeName env.aliases a.callSignature }))

/-- The pipeable classifier (lines 755-778): a call signature of the
return type passes the getter test, and that signature's sole parameter
supplies the subject type.  The source indexes `getParameters()[0]`
unconditionally; the model propagates `none` instead, which is
unreachable because the getter test guarantees one parameter. -/
def pipeablesF (env : Env) (a : Callable) : Option Classified :=
  ((Option.filter
    (fun self => isExportedInFluentNamespace env a.module self.type self.typeName)
    ((pipeableSignature env a.module a.returnType).bind (fun returnCallSignature =>
      ((returnCallSignature.params.head?).map (fun p => p.2)).bind
        (getTypeInformation env.aliases)))).map
    (fun self =>
      { symbolName := a.symbolName, module := a.module, kind := a.kind,
        typeName := self.typeName,
        outputTypeName := getFinalReturnTypeName env.aliases a.callSignature }))

/-- The fluent classifier (lines 780-789). -/
def fluentsF (env : Env) (a : Callable) : Option Classified :=
  ((fluentTypeInformation env a.module a.callSignature).map (fun info =>
    { symbolName := a.symbolName, module := a.module, kind := a.kind,
      typeName := info.1.typeName,
      outputTypeName := getFinalReturnTypeName env.aliases a.callSignature }))

/-- Parser `extractCallables` (lines 716-733): fold over the pool,
collecting matches and keeping the rest, in order. -/
def extractCallables (f : α → Option β) (pool : List α) : List β × List α :=
  pool.foldl
    (fun acc a =>
      match f a with
      | none => (acc.1, acc.2 ++ [a])
      | some b => (acc.1 ++ [b], acc.2))
    ([], [])

/-- The outcome of the four sequential extraction passes. -/
structure PartitionResult where
  staticByName : List Callable
  getters : List Classified
  pipeables : List Classified
  fluents : List Classified
  remaining : List Callable

/-- The sequential mutual-exclusion partition (lines 735-789), in source
order: static-by-name, then getters, then pipeables, then fluents. -/
def partitionCallables (env : Env) (pool : List Callable) : PartitionResult :=
  let s := extractCallables (staticByNameF env) pool
  let g := extractCallables (gettersF env) s.2
  let p := extractCallables (pipeablesF env) g.2
  let f := extractCallables (fluentsF env) p.2
  { staticByName := s.1, getters := g.1, pipeables := p.1, fluents := f.1,
    remaining := f.2 }

/-- The static/constructor mapping (lines 792-814): target the final
return type's name when it is eligible and shares the module's
top-level namespace, else the module's namespace. -/
def staticCallableF (env : Env) (a : Callable) : Classified :=
  match Option.filter
      (fun type =>
        isExportedInFluentNamespace env a.module type.type type.typeName &&
        strStartsWith (namespaceFromModule env.aliases a.module)
          (String.mk (type.typeName.data.takeWhile (fun c => c != '.'))))
      (getTypeInformation env.aliases (getFinalReturnType a.callSignature)) with
  | none =>
    { symbolName := a.symbolName, module := a.module, kind := a.kind,
      typeName := namespaceFromModule env.aliases a.module, outputTypeName := none }
  | some self =>
    { symbolName := a.symbolName, module := a.module, kind := a.kind,
      typeName := self.typeName, outputTypeName := none }

/-- The constant stream (lines 696-712): non-callable exported variables
whose type resolves and is exported in a fluent namespace. -/
def constantsOf (env : Env) (vars : List ExportedDecl) : List Classified :=
  (((vars.filter (fun a => nonFunctionReturnType a.type)).filterMap (fun a =>
    (getTypeInformation env.aliases a.type).map (fun self =>
      ({ symbolName := a.symbolName, module := a.module, kind := a.kind,
         typeName := self.typeName, outputTypeName := none }, a.type)))).filter
    (fun p => isExportedInFluentNamespace env p.1.module p.2 p.1.typeName)).map
    (fun p => p.1)

/-- The statics stream (lines 792-816): static-by-name extractions and
leftover callables through `staticCallableF`, then the constants. -/
def staticsOf (env : Env) (pr : PartitionResult) (constants : List Classified) :
    List Classified :=
  ((pr.staticByName ++ pr.remaining).map (staticCallableF env)) ++ constants

/-- Serializer extension kinds (src/Fs/index.ts lines 257-271), with the
hyphenated literals camel-cased. -/
inductive ExtensionKind where
  | static
  | pipeable
  | fluent
  | getter
  | type
  | companion
  | noInherit
  | operator
  | pipeableIndex
  | pipeableOperator
  | unify
deriving DecidableEq, Repr

/-- The five basic extension kinds the parser streams carry. -/
inductive ExtensionKindBasic where
  | static
  | pipeable
  | fluent
  | getter
  | type
deriving DecidableEq, Repr

def ExtensionKindBasic.toExtensionKind : ExtensionKindBasic → ExtensionKind
  | .static => .static
  | .pipeable => .pipeable
  | .fluent => .fluent
  | .getter => .getter
  | .type => .type

/-- Serializer `Extension` (lines 273-279). -/
structure Extension where
  kind : ExtensionKind
  typeName : String
  name : Option String
  priority : Option String
deriving DecidableEq, Repr

/-- Serializer `KindConfig` (lines 281-290); `incl` spells the zod field
`include`, which Lean reserves.  Numeric priorities are modelled as
integers. -/
structure KindConfig where
  incl : Bool
  includeCompanion : Bool
  companionSuffix : Option String
  includeStatic : Bool
  staticSuffix : Option String
  staticUsesOutputType : Bool
  priority : Option Int
deriving DecidableEq, Repr

/-- The default applied when a namespace has no config for a kind
(lines 383-388). -/
def defaultKindConfig : KindConfig :=
  { incl := true, includeCompanion := false, companionSuffix := none,
    includeStatic := false, staticSuffix := none,
    staticUsesOutputType := false, priority := none }

/-- Serializer `Namespace` (lines 292-304). -/
structure Namespace where
  name : String
  priority : Option Int
  moduleFileExtension : Option String
  modulePriority : Option (List (String × Int))
  exclude : Option (List String)
  fluent : Option KindConfig
  getter : Option KindConfig
  pipeable : Option KindConfig
  static : Option KindConfig
  type : Option KindConfig
deriving DecidableEq, Repr

/-- The indexing `ns[kind]` used by the serializer. -/
def Namespace.kindConfig (ns : Namespace) : ExtensionKindBasic → Option KindConfig
  | .static => ns.static
  | .pipeable => ns.pipeable
  | .fluent => ns.fluent
  | .getter => ns.getter
  | .type => ns.type

/-- Serializer `Definition` (lines 317-322). -/
structure Definition where
  definitionName : String
  definitionKind : DefKind
  extensions : List Extension
deriving DecidableEq, Repr

/-- Serializer `findNamespace` (src/Fs/index.ts lines 517-521): filter
the configured namespaces down to prefixes of the typeName, stable-sort
by descending name length, and take the first; the source's non-null
assertion on an empty candidate list is modelled as `none`. -/
def findNamespace (namespaces : List Namespace) (typeName : String) :
    Option Namespace :=
  (sortBy (fun a b => decide (b.name.length < a.name.length))
    (namespaces.filter (fun ns => strStartsWith typeName ns.name))).head?

/-- Serializer `findModulePriority` (lines 523-538). -/
def findModulePriority (ns : Namespace) (module : String) : Option Int :=
  ((sortBy (fun a b => decide (b.1.length < a.1.length))
    ((ns.modulePriority.getD []).filter (fun p => strStartsWith module p.1))).head?).map
    (fun p => p.2)

/-- JS string truthiness of an optional string. -/
def truthyStr : Option String → Bool
  | none => false
  | some s => s != ""

/-- JS `o || ""` for an optional string. -/
def jsStrOr : Option String → String
  | none => ""
  | some s => if s != "" then s else ""

/-- The lookup `additional[typeName]?.[definitionName] ?? []`
(line 433). -/
def additionalLookup (additional : List (String × List (String × List Extension)))
    (typeName definitionName : String) : List Extension :=
  (((additional.find? (fun p => p.1 == typeName)).bind (fun p =>
    p.2.find? (fun q => q.1 == definitionName))).map (fun q => q.2)).getD []

/-- Serializer `makeDefinitionTuple` (lines 377-437). -/
def makeDefinitionTuple (additional : List (String × List (String × List Extension)))
    (kind : ExtensionKindBasic) (a : Classified) (ns : Namespace)
    (allowStatic : Bool) : String × Definition :=
  let config := (ns.kindConfig kind).getD defaultKindConfig
  let kindPriority := config.priority.map toString
  let nsPriority := ns.priority.map toString
  let modulePriority := (findModulePriority ns a.module).map toString
  let priority := (kindPriority <|> nsPriority) <|> modulePriority
  let includeStatic := allowStatic && config.includeStatic
  (a.module ++ jsStrOr ns.moduleFileExtension,
   { definitionName := a.symbolName,
     definitionKind := a.kind,
     extensions :=
       [{ kind := kind.toExtensionKind,
          typeName := a.typeName ++
            (if kind == ExtensionKindBasic.static && truthyStr config.staticSuffix
             then config.staticSuffix.getD "" else ""),
          name := if kind != ExtensionKindBasic.type then some a.symbolName else none,
          priority := priority }] ++
       (if includeStatic then
         [{ kind := ExtensionKind.static,
            typeName :=
              (if config.staticUsesOutputType then a.outputTypeName.getD a.typeName
               else a.typeName) ++ jsStrOr config.staticSuffix,
            name := some a.symbolName, priority := none }]
        else []) ++
       (if config.includeCompanion then
         [{ kind := ExtensionKind.companion,
            typeName := a.typeName ++ config.companionSuffix.getD "",
            name := none, priority := none }]
        else []) ++
       additionalLookup additional a.typeName a.symbolName })

/-- Serializer `makeDefinitions` (lines 353-375) applied to one stream
element: drop it when no configured namespace prefixes its typeName,
when the matched config disables the kind, or when the declaration is
excluded; otherwise build its definition tuple. -/
def makeDefinitionsF (namespaces : List Namespace)
    (additional : List (String × List (String × List Extension)))
    (kind : ExtensionKindBasic) (includeStatic : Bool) (a : Classified) :
    Option (String × Definition) :=
  match findNamespace namespaces a.typeName with
  | none => none
  | some ns =>
    if !(((ns.kindConfig kind).map (fun c => c.incl)).getD true) then none
    else if (ns.exclude.getD []).contains (a.module ++ "#" ++ a.symbolName) then none
    else some (makeDefinitionTuple additional kind a ns includeStatic)

/-- One serializer stream as a list of definition tuples. -/
def makeDefinitionsList (namespaces : List Namespace)
    (additional : List (String × List (String × List Extension)))
    (kind : ExtensionKindBasic) (includeStatic : Bool)
    (stream : List Classified) : List (String × Definition) :=
  stream.filterMap (makeDefinitionsF namespaces additional kind includeStatic)

/-- Flattening of the externally supplied pre-built catalogues
(lines 444-450). -/
def mergeWithFlat (mergeWith : List (List (String × List Definition))) :
    List (String × Definition) :=
  mergeWith.flatMap (fun definitions =>
    definitions.flatMap (fun p => p.2.map (fun d => (p.1, d))))

/-- One step of the catalogue fold (lines 459-465): spread-update of a
string-keyed record, appending the definition to the module's list; an
existing key keeps its position, a new key is appended. -/
def foldInsert (acc : List (String × List Definition)) (t : String × Definition) :
    List (String × List Definition) :=
  if acc.any (fun p => p.1 == t.1) then
    acc.map (fun p => if p.1 == t.1 then (p.1, p.2 ++ [t.2]) else p)
  else acc ++ [(t.1, [t.2])]

/-- Serializer `definitions` (lines 452-466): fold the merged tuple
stream into the module-keyed catalogue.  `Stream.merge` interleaves its
inputs nondeterministically; theorems below quantify over permutations
of the tuple list to cover every interleaving. -/
def runFoldDefinitions (tuples : List (String × Definition)) :
    List (String × List Definition) :=
  tuples.foldl foldInsert []

/-- Reading a module's definition list off the folded catalogue. -/
def catalogLookup (cat : List (String × List Definition)) (m : String) :
    List Definition :=
  ((cat.find? (fun p => p.1 == m)).map (fun p => p.2)).getD []

/-- Symbol data relevant to `nonFunctionReturnType` in the graph model:
the optional declaration list reduced to its node kinds. -/
structure GSymbol where
  declKinds : Option (List TsNodeKind)
deriving DecidableEq, Repr

/-- A type in the graph model of the type-checker's object graph:
unlike the tree model `TsType`, call-signature return types are node
indices into the graph, so self-referential (cyclic) callable types are
expressible, exactly as in the type-checker's lazily resolved objects.
Each entry of `callSigReturns` stands for one call signature, given by
the index of its return type. -/
structure GNode where
  symbol : Option GSymbol
  aliasSymbol : Option GSymbol
  callSigReturns : List Nat
deriving DecidableEq, Repr

/-- Parser `nonFunctionReturnType` read on a graph node. -/
def gNonFunctionReturnType (n : GNode) : Bool :=
  let symbol := n.aliasSymbol <|> n.symbol
  let isType : Option Bool :=
    (symbol.bind (fun s => s.declKinds)).map
      (List.any · (fun d =>
        d = TsNodeKind.klass ∨ d = TsNodeKind.typeAliasNode ∨
          d = TsNodeKind.interfaceNode))
  match symbol with
  | none => true
  | some _ =>
    if isType = some true then true
    else if n.callSigReturns.length = 0 then true
    else false

/-- Parser `getFinalReturnType` (lines 409-417) on the graph model, with
an explicit fuel parameter: `unwindFuel g fuel i` runs the source's
unbounded recursion from the return type at node `i` and yields `none`
when `fuel` recursive steps do not suffice — the source itself has no
such bound and simply does not return in that case. -/
def unwindFuel (g : List GNode) : Nat → Nat → Option Nat
  | 0, _ => none
  | fuel + 1, i =>
    match g[i]? with
    | none => none
    | some n =>
      if gNonFunctionReturnType n then some i
      else
        match n.callSigReturns.head? with
        | some j => unwindFuel g fuel j
        | none => some i

/-- The unwinding relation terminates from node `i`: some finite fuel
suffices. -/
def unwindTerminates (g : List GNode) (i : Nat) : Prop :=
  ∃ fuel, (unwindFuel g fuel i).isSome

/-- One unwinding step: defined (and taken) exactly on non-terminal
nodes, moving to the first call signature's return type. -/
def firstStep (g : List GNode) (i : Nat) : Option Nat :=
  match g[i]? with
  | none => none
  | some n => if gNonFunctionReturnType n then none else n.callSigReturns.head?

/-- Iterated unwinding steps. -/
def chainSteps (g : List GNode) : Nat → Nat → Option Nat
  | 0, i => some i
  | k + 1, i => (firstStep g i).bind (chainSteps g k)

/-- The node at `i` exists and stops the unwinding. -/
def terminalAt (g : List GNode) (i : Nat) : Bool :=
  match g[i]? with
  | none => false
  | some n => gNonFunctionReturnType n

/-- The pool elements claimed by the static-by-name pass. -/
def staticByNameSrc (env : Env) (pool : List Callable) : List Callable :=
  pool.filter (fun a => (staticByNameF env a).isSome)

/-- The pool after the static-by-name pass. -/
def afterStaticByName (env : Env) (pool : List Callable) : List Callable :=
  pool.filter (fun a => (staticByNameF env a).isNone)

/-- The pool elements claimed by the getter pass. -/
def gettersSrc (env : Env) (pool : List Callable) : List Callable :=
  (afterStaticByName env pool).filter (fun a => (gettersF env a).isSome)

/-- The pool after the getter pass. -/
def afterGetters (env : Env) (pool : List Callable) : List Callable :=
  (afterStaticByName env pool).filter (fun a => (gettersF env a).isNone)

/-- The pool elements claimed by the pipeable pass. -/
def pipeablesSrc (env : Env) (pool : List Callable) : List Callable :=
  (afterGetters env pool).filter (fun a => (pipeablesF env a).isSome)

/-- The pool after the pipeable pass. -/
def afterPipeables (env : Env) (pool : List Callable) : List Callable :=
  (afterGetters env pool).filter (fun a => (pipeablesF env a).isNone)

/-- The pool elements claimed by the fluent pass. -/
def fluentsSrc (env : Env) (pool : List Callable) : List Callable :=
  (afterPipeables env pool).filter (fun a => (fluentsF env a).isSome)

/-- The pool left over after all four extraction passes. -/
def remainingSrc (env : Env) (pool : List Callable) : List Callable :=
  (afterPipeables env pool).filter (fun a => (fluentsF env a).isNone)

/-- The callables that feed the statics stream: the static-by-name
extractions together with the leftover pool (lines 792, 816). -/
def staticsSrc (env : Env) (pool : List Callable) : List Callable :=
  staticByNameSrc env pool ++ remainingSrc env pool

/-- Modelled from the claim's words, for comparison with
`partitionCallables`: the sequential partition in the order the claim
states — static-by-name, then getters, then fluents, then pipeables. -/
def partitionCallablesSpecOrder (env : Env) (pool : List Callable) : PartitionResult :=
  let s := extractCallables (staticByNameF env) pool
  let g := extractCallables (gettersF env) s.2
  let f := extractCallables (fluentsF env) g.2
  let p := extractCallables (pipeablesF env) f.2
  { staticByName := s.1, getters := g.1, pipeables := p.1, fluents := f.1,
    remaining := p.2 }

/-- The extensions filed in the catalogue under module `m` for the
declaration key `(m, n, k)`, in catalogue order. -/
def extensionsForKey (cat : List (String × List Definition)) (m n : String)
    (k : DefKind) : List Extension :=
  ((catalogLookup cat m).filter
    (fun d => d.definitionName == n && d.definitionKind == k)).flatMap
    (fun d => d.extensions)

/-- The extensions contributed by the tuple stream for the declaration
key `(m, n, k)`, in stream order. -/
def tupleExtensionsForKey (tuples : List (String × Definition)) (m n : String)
    (k : DefKind) : List Extension :=
  ((tuples.filter
    (fun t => t.1 == m && t.2.definitionName == n && t.2.definitionKind == k)).flatMap
    (fun t => t.2.extensions))

/-- Fixture: the symbol of an interface `T` declared in module `pkg/T`. -/
def symT : TsSymbol :=
  { name := "T", decls := some [{ kind := TsNodeKind.interfaceNode, modulePath := "pkg/T" }] }

/-- Fixture: the interface type `T`, whose canonical typeName is `pkg/T`. -/
def tyT : TsType := .mk (some symT) none false 0 []

/-- Fixture: a configuration whose module prefix `app` declares the
static name prefix `of` and the fluent namespace `pkg/T`, in a program
exporting `T` from `pkg/T`. -/
def envA : Env :=
  { aliases := [],
    moduleConfig := [("app", { staticPrefixes := ["of"], fluentNamespaces := ["pkg/T"] })],
    exports := [("pkg/T", ["T"])] }

/-- Fixture: an anonymous symbol-less type (its type information is
unresolvable). -/
def tyU : TsType := .mk none none false 0 []

/-- Fixture: the getter-shaped signature `(self: T) => U`. -/
def sigInner : TsSignature := .mk [("self", tyT)] tyU

/-- Fixture: the symbol of an anonymous function type. -/
def symFn : TsSymbol :=
  { name := "__type", decls := some [{ kind := TsNodeKind.otherNode, modulePath := "app/x" }] }

/-- Fixture: the anonymous callable type `(self: T) => U`. -/
def tyR : TsType := .mk (some symFn) none false 0 [sigInner]

/-- Fixture: the curried signature `(self: T) => (self: T) => U`. -/
def sigOuter : TsSignature := .mk [("self", tyT)] tyR

/-- Fixture: the anonymous callable type of `sigOuter`. -/
def tyFnOuter : TsType := .mk (some symFn) none false 0 [sigOuter]

/-- Fixture: an exported callable that passes both the pipeable test and
the fluent test — its return type has a getter-shaped call signature,
and its own first parameter is eligible with an unresolvable final
return type. -/
def cBoth : Callable :=
  { symbolName := "foo", module := "app/x", typeName := "app/x.foo",
    kind := .const, type := tyFnOuter, callSignature := sigOuter,
    returnType := tyR }

/-- Fixture: a getter-shaped exported callable with non-boolean return. -/
def cGetter : Callable :=
  { symbolName := "value", module := "app/x", typeName := "app/x.value",
    kind := .const, type := tyR, callSignature := sigInner,
    returnType := tyU }

/-- Fixture: a getter-shaped exported callable named with the configured
static name prefix `of`. -/
def cOf : Callable :=
  { symbolName := "of", module := "app/x", typeName := "app/x.of",
    kind := .const, type := tyR, callSignature := sigInner,
    returnType := tyU }

/-- Fixture: the boolean primitive type (`Ts.TypeFlags.Boolean` set, no
symbol). -/
def tyBool : TsType := .mk none none false 16 []

/-- Fixture: the predicate-shaped signature `(self: T) => boolean`. -/
def sigBoolGetter : TsSignature := .mk [("self", tyT)] tyBool

/-- Fixture: the anonymous callable type of `sigBoolGetter`. -/
def tyFnBool : TsType := .mk (some symFn) none false 0 [sigBoolGetter]

/-- Fixture: a single-parameter exported callable returning boolean whose
parameter passes the eligible-namespace getter test. -/
def cBoolGetter : Callable :=
  { symbolName := "isGood", module := "app/x", typeName := "app/x.isGood",
    kind := .const, type := tyFnBool, callSignature := sigBoolGetter,
    returnType := tyBool }

/-- Fixture: a namespace configuration entry with name `Foo` and all
optional settings absent. -/
def nsFoo : Namespace :=
  { name := "Foo", priority := none, moduleFileExtension := none,
    modulePriority := none, exclude := none, fluent := none, getter := none,
    pipeable := none, static := none, type := none }

/-- Fixture: the overlapping namespace configuration entry `Foo.Bar`. -/
def nsFooBar : Namespace := { nsFoo with name := "Foo.Bar" }

/-- Fixture: a one-extension definition for a `map` function. -/
def defMapA : Definition :=
  { definitionName := "map", definitionKind := .function,
    extensions := [{ kind := .fluent, typeName := "Foo", name := some "map", priority := none }] }

/-- Fixture: a second definition for the same `(module, name, kind)`
key carrying a different extension. -/
def defMapB : Definition :=
  { definitionName := "map", definitionKind := .function,
    extensions := [{ kind := .static, typeName := "Foo.Ops", name := some "map", priority := none }] }

/-- Fixture: a definition for a different declaration. -/
def defZip : Definition :=
  { definitionName := "zip", definitionKind := .function,
    extensions := [{ kind := .pipeable, typeName := "Foo", name := some "zip", priority := none }] }

/-- Fixture: a classified declaration whose typeName extends no
configured namespace name. -/
def cOrphan : Classified :=
  { symbolName := "x", module := "m", typeName := "Zzz", kind := .const,
    outputTypeName := none }

/-- Fixture: a cyclic type graph — one anonymous callable node whose
first call signature returns the node itself. -/
def gBad : List GNode :=
  [{ symbol := some { declKinds := some [TsNodeKind.otherNode] },
     aliasSymbol := none, callSigReturns := [0] }]

/-- Fixture: a two-node graph — an anonymous callable node whose first
call signature returns a symbol-less (terminal) node. -/
def gOk : List GNode :=
  [{ symbol := some { declKinds := some [TsNodeKind.otherNode] },
     aliasSymbol := none, callSigReturns := [1] },
   { symbol := none, aliasSymbol := none, callSigReturns := [] }]

example : namespaceFromModule [] "pkg/Foo/Bar" = "pkg/Foo/Bar" := by decide

example : namespaceFromModule [] "@scope/pkg/src/Foo/index" = "scope/pkg/Foo" := by decide

example : namespaceFromModule [] "pkg/Foo/definition/x" = "pkg/Foo" := by decide

example : getTargetString [] "Foo/Bar" "Bar" = "Foo/Bar" := by decide

example : getTargetString [] "Foo/Bar" "BarBaz" = "Foo/Bar.Baz" := by decide

example : getTargetString [] "typescript/lib" "lib" = "lib" := by decide

example : getTargetString [] "Foo/Bar" "FooBar" = "Foo/Bar" := by decide

example : getTargetString [] "Foo/Bar" "quux" = "Foo/Bar.quux" := by decide

example : (getterTypeInformation envA "app/x" sigInner).isSome = true := by decide

example : (gettersF envA cGetter).isSome = true := by decide

example : gettersF envA cBoolGetter = none := by decide

example : (fluentsF envA cBoth).isSome = true := by decide

example : (pipeablesF envA cBoth).isSome = true := by decide

example : (fluentTypeInformation envA "app/x" sigOuter).isSome = true := by decide

example : (staticByNameF envA cOf).isSome = true := by decide

example : (staticByNameF envA cBoth).isSome = false := by decide

example :
    pipeablesF envA cBoth =
      some { symbolName := "foo", module := "app/x", typeName := "pkg/T",
             kind := .const, outputTypeName := none } := by decide

example : findNamespace [nsFoo, nsFooBar] "Foo.Bar.baz" = some nsFooBar := by decide

example : getTargetString [] "typescript/y" "y" = "y" := by decide

example : unwindFuel gBad 5 0 = none := by decide

example : unwindFuel gOk 2 0 = some 1 := by decide

theorem extractCallables_go (f : α → Option β) (pool : List α) (s : List β) (r : List α) :
    List.foldl
      (fun acc a =>
        match f a with
        | none => (acc.1, acc.2 ++ [a])
        | some b => (acc.1 ++ [b], acc.2))
      (s, r) pool =
    (s ++ pool.filterMap f, r ++ pool.filter (fun a => (f a).isNone)) := by
  induction pool generalizing s r with
  | nil => simp
  | cons a as ih =>
    simp only [List.foldl_cons]
    cases hfa : f a with
    | none =>
      simp only [hfa]
      rw [ih]
      simp [List.filterMap_cons, List.filter_cons, hfa]
    | some b =>
      simp only [hfa]
      rw [ih]
      simp [List.filterMap_cons, List.filter_cons, hfa]

theorem extractCallables_eq (f : α → Option β) (pool : List α) :
    extractCallables f pool =
      (pool.filterMap f, pool.filter (fun a => (f a).isNone)) := by
  unfold extractCallables
  simpa using extractCallables_go f pool [] []

theorem filterMap_staticByNameF (env : Env) (pool : List Callable) :
    pool.filterMap (staticByNameF env) = staticByNameSrc env pool := by
  unfold staticByNameSrc
  induction pool with
  | nil => simp
  | cons a as ih =>
    by_cases h : hasStaticPrefixOn env a.module a.symbolName = true
    · simp [List.filterMap_cons, List.filter_cons, staticByNameF, h, ih]
    · simp only [Bool.not_eq_true] at h
      simp [List.filterMap_cons, List.filter_cons, staticByNameF, h, ih]

theorem partitionCallables_eq (env : Env) (pool : List Callable) :
    partitionCallables env pool =
      { staticByName := staticByNameSrc env pool,
        getters := (gettersSrc env pool).filterMap (gettersF env),
        pipeables := (pipeablesSrc env pool).filterMap (pipeablesF env),
        fluents := (fluentsSrc env pool).filterMap (fluentsF env),
        remaining := remainingSrc env pool } := by
  have hfm : ∀ (g : Callable → Option Classified) (r : Callable → Bool)
      (l : List Callable),
      (l.filter (fun a => (g a).isSome && r a)).filterMap g =
        (l.filter r).filterMap g := by
    intro g r l
    induction l with
    | nil => simp
    | cons a as ih =>
      cases hga : g a with
      | none =>
        by_cases hr : r a = true <;>
          simp [List.filter_cons, List.filterMap_cons, hga, hr, ih]
      | some b =>
        by_cases hr : r a = true <;>
          simp [List.filter_cons, List.filterMap_cons, hga, hr, ih]
  unfold partitionCallables
  simp only [extractCallables_eq, filterMap_staticByNameF]
  unfold gettersSrc pipeablesSrc fluentsSrc remainingSrc afterPipeables
    afterGetters afterStaticByName staticByNameSrc
  simp [List.filter_filter]
  exact ⟨(hfm _ _ _).symm, (hfm _ _ _).symm, (hfm _ _ _).symm⟩

theorem mem_staticByNameSrc_iff (env : Env) (pool : List Callable) (a : Callable) :
    a ∈ staticByNameSrc env pool ↔
      a ∈ pool ∧ (staticByNameF env a).isSome = true := by
  simp [staticByNameSrc, List.mem_filter]

theorem mem_gettersSrc_iff (env : Env) (pool : List Callable) (a : Callable) :
    a ∈ gettersSrc env pool ↔
      a ∈ pool ∧ staticByNameF env a = none ∧ (gettersF env a).isSome = true := by
  simp only [gettersSrc, afterStaticByName, List.mem_filter,
    Option.isNone_iff_eq_none]
  tauto

theorem mem_pipeablesSrc_iff (env : Env) (pool : List Callable) (a : Callable) :
    a ∈ pipeablesSrc env pool ↔
      a ∈ pool ∧ staticByNameF env a = none ∧ gettersF env a = none ∧
        (pipeablesF env a).isSome = true := by
  simp only [pipeablesSrc, afterGetters, afterStaticByName, List.mem_filter,
    Option.isNone_iff_eq_none]
  tauto

theorem mem_fluentsSrc_iff (env : Env) (pool : List Callable) (a : Callable) :
    a ∈ fluentsSrc env pool ↔
      a ∈ pool ∧ staticByNameF env a = none ∧ gettersF env a = none ∧
        pipeablesF env a = none ∧ (fluentsF env a).isSome = true := by
  simp only [fluentsSrc, afterPipeables, afterGetters, afterStaticByName,
    List.mem_filter, Option.isNone_iff_eq_none]
  tauto

theorem mem_remainingSrc_iff (env : Env) (pool : List Callable) (a : Callable) :
    a ∈ remainingSrc env pool ↔
      a ∈ pool ∧ staticByNameF env a = none ∧ gettersF env a = none ∧
        pipeablesF env a = none ∧ fluentsF env a = none := by
  simp only [remainingSrc, afterPipeables, afterGetters, afterStaticByName,
    List.mem_filter, Option.isNone_iff_eq_none]
  tauto

theorem mem_staticsSrc_iff (env : Env) (pool : List Callable) (a : Callable) :
    a ∈ staticsSrc env pool ↔
      a ∈ pool ∧ ((staticByNameF env a).isSome = true ∨
        (staticByNameF env a = none ∧ gettersF env a = none ∧
          pipeablesF env a = none ∧ fluentsF env a = none)) := by
  simp only [staticsSrc, List.mem_append, mem_staticByNameSrc_iff,
    mem_remainingSrc_iff]
  tauto

theorem partition_covers (env : Env) (pool : List Callable) (a : Callable) :
    a ∈ pool ↔
      a ∈ gettersSrc env pool ∨ a ∈ pipeablesSrc env pool ∨
        a ∈ fluentsSrc env pool ∨ a ∈ staticsSrc env pool := by
  simp only [mem_gettersSrc_iff, mem_pipeablesSrc_iff, mem_fluentsSrc_iff,
    mem_staticsSrc_iff]
  constructor
  · intro ha
    cases hs : staticByNameF env a with
    | some b => exact Or.inr (Or.inr (Or.inr ⟨ha, Or.inl (by simp)⟩))
    | none =>
      cases hg : gettersF env a with
      | some b => exact Or.inl ⟨ha, rfl, by simp⟩
      | none =>
        cases hp : pipeablesF env a with
        | some b => exact Or.inr (Or.inl ⟨ha, rfl, rfl, by simp⟩)
        | none =>
          cases hf : fluentsF env a with
          | some b => exact Or.inr (Or.inr (Or.inl ⟨ha, rfl, rfl, rfl, by simp⟩))
          | none =>
            exact Or.inr (Or.inr (Or.inr ⟨ha, Or.inr ⟨rfl, rfl, rfl, rfl⟩⟩))
  · rintro (⟨ha, _⟩ | ⟨ha, _⟩ | ⟨ha, _⟩ | ⟨ha, _⟩) <;> exact ha

theorem catalogLookup_foldInsert (acc : List (String × List Definition))
    (t : String × Definition) (m : String) :
    catalogLookup (foldInsert acc t) m =
      if t.1 == m then catalogLookup acc m ++ [t.2] else catalogLookup acc m := by
  unfold foldInsert catalogLookup
  by_cases hany : acc.any (fun p => p.1 == t.1) = true
  · rw [if_pos hany, List.find?_map]
    have hpred :
        ((fun p : String × List Definition => p.1 == m) ∘
          (fun p : String × List Definition =>
            if p.1 == t.1 then (p.1, p.2 ++ [t.2]) else p)) =
        (fun p : String × List Definition => p.1 == m) := by
      funext p
      by_cases h : p.1 = t.1 <;> simp [h]
    rw [hpred]
    cases hfind : List.find? (fun p => p.1 == m) acc with
    | none =>
      by_cases htm : (t.1 == m) = true
      · exfalso
        rw [List.any_eq_true] at hany
        obtain ⟨y, hy, hyt⟩ := hany
        rw [List.find?_eq_none] at hfind
        apply hfind y hy
        have h1 : y.1 = t.1 := by simpa using hyt
        have h2 : t.1 = m := by simpa using htm
        simp [h1, h2]
      · simp [htm]
    | some x =>
      have hx1 : x.1 = m := by simpa using List.find?_some hfind
      by_cases htm : (t.1 == m) = true
      · have h2 : t.1 = m := by simpa using htm
        simp [htm, hx1, h2]
      · have h2 : ¬t.1 = m := by simpa using htm
        have h3 : ¬x.1 = t.1 := by
          rw [hx1]
          intro hc
          exact h2 hc.symm
        simp [htm, h3]
  · rw [if_neg hany, List.find?_append]
    cases hfind : List.find? (fun p => p.1 == m) acc with
    | some x =>
      by_cases htm : (t.1 == m) = true
      · exfalso
        apply hany
        rw [List.any_eq_true]
        have hx1 : x.1 = m := by simpa using List.find?_some hfind
        have h2 : t.1 = m := by simpa using htm
        exact ⟨x, List.mem_of_find?_eq_some hfind, by simp [hx1, h2]⟩
      · simp [htm, Option.or]
    | none =>
      by_cases htm : (t.1 == m) = true
      · simp [htm, Option.or, List.find?]
      · simp [htm, Option.or, List.find?]

theorem catalogLookup_runFold_go (tuples : List (String × Definition))
    (acc : List (String × List Definition)) (m : String) :
    catalogLookup (tuples.foldl foldInsert acc) m =
      catalogLookup acc m ++ (tuples.filter (fun t => t.1 == m)).map (fun t => t.2) := by
  induction tuples generalizing acc with
  | nil => simp
  | cons t ts ih =>
    rw [List.foldl_cons, ih, catalogLookup_foldInsert]
    by_cases htm : (t.1 == m) = true <;> simp [htm, List.filter_cons]

theorem catalogLookup_runFold (tuples : List (String × Definition)) (m : String) :
    catalogLookup (runFoldDefinitions tuples) m =
      (tuples.filter (fun t => t.1 == m)).map (fun t => t.2) := by
  unfold runFoldDefinitions
  have h := catalogLookup_runFold_go tuples [] m
  simpa [catalogLookup] using h

theorem catalogLookup_perm {tuples tuples' : List (String × Definition)}
    (h : tuples.Perm tuples') (m : String) :
    (catalogLookup (runFoldDefinitions tuples) m).Perm
      (catalogLookup (runFoldDefinitions tuples') m) := by
  rw [catalogLookup_runFold, catalogLookup_runFold]
  exact (h.filter _).map _

theorem extensionsForKey_runFold (tuples : List (String × Definition))
    (m n : String) (k : DefKind) :
    extensionsForKey (runFoldDefinitions tuples) m n k =
      tupleExtensionsForKey tuples m n k := by
  unfold extensionsForKey tupleExtensionsForKey
  rw [catalogLookup_runFold, List.filter_map, List.flatMap_map, List.filter_filter]
  congr 1
  apply List.filter_congr
  intro x _
  simp only [Function.comp]
  rw [Bool.and_comm, Bool.and_assoc]

theorem gNonFunctionReturnType_of_nil {n : GNode} (h : n.callSigReturns = []) :
    gNonFunctionReturnType n = true := by
  unfold gNonFunctionReturnType
  cases hsym : n.aliasSymbol <|> n.symbol <;> simp [hsym, h]

theorem unwindFuel_sound (g : List GNode) :
    ∀ (fuel i j : Nat), unwindFuel g fuel i = some j →
      ∃ k, k < fuel ∧ chainSteps g k i = some j ∧ terminalAt g j = true := by
  intro fuel
  induction fuel with
  | zero => intro i j h; simp [unwindFuel] at h
  | succ fuel ih =>
    intro i j h
    cases hgi : g[i]? with
    | none => simp [unwindFuel, hgi] at h
    | some n =>
      simp only [unwindFuel, hgi] at h
      by_cases hterm : gNonFunctionReturnType n = true
      · rw [if_pos hterm] at h
        have hij : i = j := by simpa using h
        subst hij
        exact ⟨0, by omega, by simp [chainSteps], by simp [terminalAt, hgi, hterm]⟩
      · rw [if_neg hterm] at h
        cases hhd : n.callSigReturns.head? with
        | none =>
          exfalso
          have hnil : n.callSigReturns = [] := by
            cases hl : n.callSigReturns with
            | nil => rfl
            | cons x xs => rw [hl] at hhd; simp at hhd
          exact hterm (gNonFunctionReturnType_of_nil hnil)
        | some j' =>
          rw [hhd] at h
          obtain ⟨k, hk, hchain, hjterm⟩ := ih j' j h
          refine ⟨k + 1, by omega, ?_, hjterm⟩
          simp only [chainSteps, firstStep, hgi, if_neg hterm, hhd]
          simpa using hchain

theorem unwindFuel_complete (g : List GNode) :
    ∀ (k i j : Nat), chainSteps g k i = some j → terminalAt g j = true →
      unwindFuel g (k + 1) i = some j := by
  intro k
  induction k with
  | zero =>
    intro i j hchain hterm
    have hij : i = j := by simpa [chainSteps] using hchain
    subst hij
    cases hgi : g[i]? with
    | none => simp [terminalAt, hgi] at hterm
    | some n =>
      simp only [terminalAt, hgi] at hterm
      simp [unwindFuel, hgi, hterm]
  | succ k ih =>
    intro i j hchain hterm
    simp only [chainSteps] at hchain
    cases hfs : firstStep g i with
    | none => rw [hfs] at hchain; simp at hchain
    | some j' =>
      rw [hfs] at hchain
      simp only [Option.bind] at hchain
      have hnext := ih j' j hchain hterm
      cases hgi : g[i]? with
      | none => simp [firstStep, hgi] at hfs
      | some n =>
        simp only [firstStep, hgi] at hfs
        by_cases hterm' : gNonFunctionReturnType n = true
        · rw [if_pos hterm'] at hfs; simp at hfs
        · rw [if_neg hterm'] at hfs
          simp only [unwindFuel, hgi]
          rw [if_neg hterm', hfs]
          exact hnext

theorem unwindFuel_gBad (fuel : Nat) : unwindFuel gBad fuel 0 = none := by
  induction fuel with
  | zero => rfl
  | succ n ih => exact ih

theorem insertBy_perm (lt : α → α → Bool) (a : α) (l : List α) :
    (insertBy lt a l).Perm (a :: l) := by
  induction l with
  | nil => simp [insertBy]
  | cons b bs ih =>
    unfold insertBy
    by_cases h : lt b a = true
    · rw [if_pos h]
      exact (ih.cons b).trans (List.Perm.swap a b bs)
    · rw [if_neg h]

theorem sortBy_perm (lt : α → α → Bool) (l : List α) : (sortBy lt l).Perm l := by
  induction l with
  | nil => simp [sortBy]
  | cons a as ih =>
    unfold sortBy
    exact (insertBy_perm lt a (sortBy lt as)).trans (ih.cons a)

theorem insertBy_pairwise (lt : α → α → Bool)
    (hneg : ∀ x y z, lt y x = false → lt z y = false → lt z x = false)
    (hasymm : ∀ x y, lt x y = true → lt y x = false)
    (a : α) (l : List α) (hl : List.Pairwise (fun x y => lt y x = false) l) :
    List.Pairwise (fun x y => lt y x = false) (insertBy lt a l) := by
  induction l with
  | nil => simp [insertBy]
  | cons b bs ih =>
    rw [List.pairwise_cons] at hl
    unfold insertBy
    by_cases h : lt b a = true
    · rw [if_pos h, List.pairwise_cons]
      refine ⟨?_, ih hl.2⟩
      intro y hy
      have hy' : y ∈ a :: bs := (insertBy_perm lt a bs).mem_iff.mp hy
      rcases List.mem_cons.mp hy' with rfl | hybs
      · exact hasymm b y h
      · exact hl.1 y hybs
    · rw [if_neg h, List.pairwise_cons]
      refine ⟨?_, List.pairwise_cons.mpr hl⟩
      intro y hy
      rcases List.mem_cons.mp hy with rfl | hybs
      · exact Bool.eq_false_iff.mpr h
      · exact hneg a b y (Bool.eq_false_iff.mpr h) (hl.1 y hybs)

theorem sortBy_pairwise (lt : α → α → Bool)
    (hneg : ∀ x y z, lt y x = false → lt z y = false → lt z x = false)
    (hasymm : ∀ x y, lt x y = true → lt y x = false)
    (l : List α) :
    List.Pairwise (fun x y => lt y x = false) (sortBy lt l) := by
  induction l with
  | nil => simp [sortBy]
  | cons a as ih => exact insertBy_pairwise lt hneg hasymm a (sortBy lt as) ih

theorem sortBy_head_max (lt : α → α → Bool)
    (hneg : ∀ x y z, lt y x = false → lt z y = false → lt z x = false)
    (hasymm : ∀ x y, lt x y = true → lt y x = false)
    (hirr : ∀ x, lt x x = false)
    (l : List α) (x : α) (h : (sortBy lt l).head? = some x) :
    x ∈ l ∧ ∀ y ∈ l, lt y x = false := by
  cases hs : sortBy lt l with
  | nil => rw [hs] at h; simp at h
  | cons z zs =>
    rw [hs] at h
    have hzx : z = x := by simpa using h
    subst hzx
    have hperm := sortBy_perm lt l
    rw [hs] at hperm
    constructor
    · exact hperm.mem_iff.mp (List.mem_cons_self z zs)
    · intro y hy
      have hy' : y ∈ z :: zs := hperm.mem_iff.mpr hy
      rcases List.mem_cons.mp hy' with rfl | hyzs
      · exact hirr y
      · have hpw := sortBy_pairwise lt hneg hasymm l
        rw [hs, List.pairwise_cons] at hpw
        exact hpw.1 y hyzs

theorem getTypeInformation_type {aliases : List (String × String)} {t : TsType}
    {info : TypeInfo} (h : getTypeInformation aliases t = some info) :
    info.type = t := by
  unfold getTypeInformation at h
  cases hs : t.aliasSymbol <|> t.symbol with
  | none => rw [hs] at h; simp at h
  | some symbol =>
    rw [hs] at h
    simp only [Option.some_bind] at h
    by_cases hitp : t.isTypeParam = true
    · rw [if_pos hitp] at h; simp at h
    · rw [if_neg hitp] at h
      cases hsf : getSourceFileFromSymbol symbol with
      | none => rw [hsf] at h; simp at h
      | some sf =>
        rw [hsf] at h
        simp only [Option.map_some'] at h
        cases h
        rfl

theorem getFirstParamType_eq_some {env : Env} {sig : TsSignature} {fp : TypeInfo}
    (h : getFirstParamType env sig = some fp) :
    ∃ nm t, sig.params.head? = some (nm, t) ∧ nonFunctionReturnType t = true ∧
      getTypeInformation env.aliases t = some fp := by
  unfold getFirstParamType at h
  cases hh : sig.params.head? with
  | none => rw [hh] at h; simp at h
  | some p =>
    rw [hh] at h
    simp only [Option.map_some'] at h
    by_cases hnf : nonFunctionReturnType p.2 = true
    · refine ⟨p.1, p.2, by simp [hh], hnf, ?_⟩
      rw [Option.filter] at h
      simpa [hnf] using h
    · rw [Option.filter] at h
      simp [hnf] at h

theorem getterTypeInformation_eq_some {env : Env} {module : String}
    {sig : TsSignature} {fp : TypeInfo}
    (h : getterTypeInformation env module sig = some fp) :
    sig.params.length = 1 ∧ nonFunctionReturnType sig.returnType = true ∧
      getFirstParamType env sig = some fp ∧
      isExportedInFluentNamespace env module fp.type fp.typeName = true := by
  unfold getterTypeInformation at h
  by_cases hc : (sig.params.length = 1 && nonFunctionReturnType sig.returnType) = true
  · rw [if_pos hc] at h
    rw [Option.filter_eq_some] at h
    rw [Bool.and_eq_true] at hc
    exact ⟨by simpa using hc.1, hc.2, by simpa using h.1, h.2⟩
  · rw [if_neg hc] at h
    simp at h

theorem getterTypeInformation_isSome_of {env : Env} {module : String}
    {sig : TsSignature} {fp : TypeInfo}
    (hlen : sig.params.length = 1)
    (hret : nonFunctionReturnType sig.returnType = true)
    (hfp : getFirstParamType env sig = some fp)
    (hex : isExportedInFluentNamespace env module fp.type fp.typeName = true) :
    getterTypeInformation env module sig = some fp := by
  unfold getterTypeInformation
  rw [if_pos (by simp [hlen, hret])]
  rw [Option.filter_eq_some]
  exact ⟨by simpa using hfp, hex⟩

/-- C6: for every classified declaration, the NamespaceConfig applied to
it is the entry whose name is the longest configured string prefix of the
declaration's typeName: `findNamespace` returns a configured entry whose
name prefixes the typeName, of maximal length among all matching entries,
and when one matching entry is strictly longest it is the one returned,
deterministically. -/
theorem findNamespace_longest_prefix_wins (namespaces : List Namespace)
    (typeName : String) (ns : Namespace)
    (h : findNamespace namespaces typeName = some ns) :
    ns ∈ namespaces ∧ strStartsWith typeName ns.name = true ∧
    (∀ c ∈ namespaces, strStartsWith typeName c.name = true →
      c.name.length ≤ ns.name.length) ∧
    (∀ c ∈ namespaces, strStartsWith typeName c.name = true →
      (∀ c' ∈ namespaces, strStartsWith typeName c'.name = true → c' ≠ c →
        c'.name.length < c.name.length) → ns = c) := by
  unfold findNamespace at h
  have hhm := sortBy_head_max
    (fun (a b : Namespace) => decide (b.name.length < a.name.length))
    (by
      intro x y z h1 h2
      simp only [decide_eq_false_iff_not, not_lt] at h1 h2 ⊢
      omega)
    (by
      intro x y hxy
      simp only [decide_eq_true_eq] at hxy
      simp only [decide_eq_false_iff_not, not_lt]
      omega)
    (by intro x; simp)
    (namespaces.filter (fun c => strStartsWith typeName c.name)) ns h
  obtain ⟨hmem, hmax⟩ := hhm
  rw [List.mem_filter] at hmem
  have hle : ∀ c ∈ namespaces, strStartsWith typeName c.name = true →
      c.name.length ≤ ns.name.length := by
    intro c hc hsw
    have hc' := hmax c (List.mem_filter.mpr ⟨hc, hsw⟩)
    simp only [decide_eq_false_iff_not, not_lt] at hc'
    exact hc'
  refine ⟨hmem.1, hmem.2, hle, ?_⟩
  intro c hc hsw huniq
  by_contra hne
  have h1 : c.name.length ≤ ns.name.length := hle c hc hsw
  have h2 : ns.name.length < c.name.length := huniq ns hmem.1 hmem.2 hne
  omega

theorem findNamespace_longest_prefix_wins_witness :
    findNamespace [nsFoo, nsFooBar] "Foo.Bar.baz" = some nsFooBar ∧
    (nsFooBar ∈ [nsFoo, nsFooBar] ∧
      strStartsWith "Foo.Bar.baz" nsFooBar.name = true ∧
      (∀ c ∈ [nsFoo, nsFooBar], strStartsWith "Foo.Bar.baz" c.name = true →
        c.name.length ≤ nsFooBar.name.length) ∧
      (∀ c ∈ [nsFoo, nsFooBar], strStartsWith "Foo.Bar.baz" c.name = true →
        (∀ c' ∈ [nsFoo, nsFooBar], strStartsWith "Foo.Bar.baz" c'.name = true →
          c' ≠ c → c'.name.length < c.name.length) → nsFooBar = c)) :=
  ⟨by decide,
   findNamespace_longest_prefix_wins [nsFoo, nsFooBar] "Foo.Bar.baz" nsFooBar
     (by decide)⟩

/-- C7 counterexample: for a source file under the reserved
`typescript/` module tree, a symbol named like the namespace's base name
resolves to the bare symbol name, not to the namespace — the claim's
unconditional base-name round-trip fails there. -/
theorem getTargetString_typescript_counterexample :
    basename (namespaceFromModule [] "typescript/y") = "y" ∧
    getTargetString [] "typescript/y" "y" ≠ namespaceFromModule [] "typescript/y" := by
  refine ⟨by decide, by decide⟩

/-- C7 (amended): for every source file whose resolved namespace does not
begin with the reserved `typescript/` marker, a symbol named exactly like
the namespace's base name resolves to the namespace itself. -/
theorem getTargetString_base_name (aliases : List (String × String))
    (modulePath name : String)
    (hts : strStartsWith (namespaceFromModule aliases modulePath) "typescript/" = false)
    (hbase : name = basename (namespaceFromModule aliases modulePath)) :
    getTargetString aliases modulePath name = namespaceFromModule aliases modulePath := by
  subst hbase
  unfold getTargetString
  simp [hts]

theorem getTargetString_base_name_witness :
    strStartsWith (namespaceFromModule [] "Foo/Bar") "typescript/" = false ∧
    "Bar" = basename (namespaceFromModule [] "Foo/Bar") ∧
    getTargetString [] "Foo/Bar" "Bar" = namespaceFromModule [] "Foo/Bar" :=
  ⟨by decide, by decide,
   getTargetString_base_name [] "Foo/Bar" "Bar" (by decide) (by decide)⟩

/-- C10: a classified declaration whose typeName extends no configured
namespace name is dropped by the serializer: its per-element definition
is `none`, and the definition-tuple stream over a pool containing it is
the stream over the pool without it. -/
theorem unmatched_namespace_dropped (namespaces : List Namespace)
    (additional : List (String × List (String × List Extension)))
    (kind : ExtensionKindBasic) (includeStatic : Bool) (a : Classified)
    (h : ∀ ns ∈ namespaces, strStartsWith a.typeName ns.name = false) :
    makeDefinitionsF namespaces additional kind includeStatic a = none ∧
    ∀ rest : List Classified,
      makeDefinitionsList namespaces additional kind includeStatic (a :: rest) =
        makeDefinitionsList namespaces additional kind includeStatic rest := by
  have hfil : namespaces.filter (fun ns => strStartsWith a.typeName ns.name) = [] := by
    rw [List.filter_eq_nil_iff]
    intro ns hns
    simp [h ns hns]
  have hfn : findNamespace namespaces a.typeName = none := by
    unfold findNamespace
    rw [hfil]
    rfl
  refine ⟨?_, ?_⟩
  · unfold makeDefinitionsF
    rw [hfn]
  · intro rest
    unfold makeDefinitionsList
    rw [List.filterMap_cons]
    have : makeDefinitionsF namespaces additional kind includeStatic a = none := by
      unfold makeDefinitionsF
      rw [hfn]
    rw [this]

theorem unmatched_namespace_dropped_witness :
    makeDefinitionsF [nsFoo] [] ExtensionKindBasic.getter true cOrphan = none ∧
    ∀ rest : List Classified,
      makeDefinitionsList [nsFoo] [] ExtensionKindBasic.getter true (cOrphan :: rest) =
        makeDefinitionsList [nsFoo] [] ExtensionKindBasic.getter true rest :=
  unmatched_namespace_dropped [nsFoo] [] ExtensionKindBasic.getter true cOrphan
    (by decide)

/-- C2: the catalogue fold appends, never replaces or drops — a module's
catalogue entry lists exactly the definitions the merged tuple stream
contributed for it, in stream order; the extensions recorded for one
`(module, declarationName, declarationKind)` key are the concatenation of
the contributing entries' extension lists; and any reordering of the
merged stream — in particular swapping two externally supplied pre-built
catalogues — changes a module's list only up to permutation. -/
theorem aggregator_appends_and_merge_order_irrelevant
    (tuples tuples' : List (String × Definition)) (m n : String) (k : DefKind) :
    catalogLookup (runFoldDefinitions tuples) m =
      (tuples.filter (fun t => t.1 == m)).map (fun t => t.2) ∧
    extensionsForKey (runFoldDefinitions tuples) m n k =
      tupleExtensionsForKey tuples m n k ∧
    (tuples.Perm tuples' →
      (catalogLookup (runFoldDefinitions tuples) m).Perm
        (catalogLookup (runFoldDefinitions tuples') m)) ∧
    (∀ (base : List (String × Definition)) (A B : List (String × List Definition)),
      (catalogLookup (runFoldDefinitions (base ++ mergeWithFlat [A, B])) m).Perm
        (catalogLookup (runFoldDefinitions (base ++ mergeWithFlat [B, A])) m)) := by
  refine ⟨catalogLookup_runFold tuples m, extensionsForKey_runFold tuples m n k,
    fun h => catalogLookup_perm h m, ?_⟩
  intro base A B
  apply catalogLookup_perm
  apply List.Perm.append_left
  have hAB : mergeWithFlat [A, B] =
      A.flatMap (fun p => p.2.map (fun d => (p.1, d))) ++
        B.flatMap (fun p => p.2.map (fun d => (p.1, d))) := by
    simp [mergeWithFlat]
  have hBA : mergeWithFlat [B, A] =
      B.flatMap (fun p => p.2.map (fun d => (p.1, d))) ++
        A.flatMap (fun p => p.2.map (fun d => (p.1, d))) := by
    simp [mergeWithFlat]
  rw [hAB, hBA]
  exact List.perm_append_comm

theorem aggregator_appends_witness :
    ([("m", defMapA), ("m", defMapB)] : List (String × Definition)).Perm
      [("m", defMapB), ("m", defMapA)] ∧
    (catalogLookup (runFoldDefinitions [("m", defMapA), ("m", defMapB)]) "m").Perm
      (catalogLookup (runFoldDefinitions [("m", defMapB), ("m", defMapA)]) "m") ∧
    catalogLookup (runFoldDefinitions [("m", defMapA), ("m", defMapB)]) "m" =
      [defMapA, defMapB] ∧
    extensionsForKey (runFoldDefinitions [("m", defMapA), ("m", defMapB)]) "m"
      "map" DefKind.function = defMapA.extensions ++ defMapB.extensions :=
  ⟨by decide,
   (aggregator_appends_and_merge_order_irrelevant
     [("m", defMapA), ("m", defMapB)] [("m", defMapB), ("m", defMapA)]
     "m" "map" DefKind.function).2.2.1 (by decide),
   by decide, by decide⟩

/-- C8 counterexample: the curried-return unwinding does not terminate on
a pathological self-referential anonymous callable type — no recursion
depth suffices on the one-node cyclic graph, so the recursion depth is
not defensively bounded. -/
theorem unwind_divergence_counterexample : ¬unwindTerminates gBad 0 := by
  rintro ⟨fuel, hf⟩
  rw [unwindFuel_gBad fuel] at hf
  simp at hf

/-- C8 (amended): the unwinding of `getFinalReturnType` stops exactly at
the first return type along the first-call-signature chain that has no
call signatures or resolves to a named class/interface/type-alias
declaration or lacks a symbol: with enough fuel it returns a node iff
the step chain reaches such a terminal node, and the recursion is
otherwise unbounded (no defensive depth bound exists in the source). -/
theorem unwind_characterization :
    (∀ (g : List GNode) (fuel i j : Nat), unwindFuel g fuel i = some j →
      ∃ k, k < fuel ∧ chainSteps g k i = some j ∧ terminalAt g j = true) ∧
    (∀ (g : List GNode) (k i j : Nat), chainSteps g k i = some j →
      terminalAt g j = true → unwindFuel g (k + 1) i = some j) :=
  ⟨fun g => unwindFuel_sound g, fun g => unwindFuel_complete g⟩

theorem unwind_characterization_witness :
    unwindFuel gOk 2 0 = some 1 ∧
    (∃ k, k < 2 ∧ chainSteps gOk k 0 = some 1 ∧ terminalAt gOk 1 = true) ∧
    unwindFuel gOk (1 + 1) 0 = some 1 :=
  ⟨by decide, unwind_characterization.1 gOk 2 0 1 (by decide),
   unwind_characterization.2 gOk 1 0 1 (by decide) (by decide)⟩

/-- C1: the classifier assigns each callable in the pool at most one
primary category — membership in the source pools of the four
primary-category streams (getters, pipeables, fluents, statics, the
latter comprising the static-by-name extractions and the leftover pool)
is pairwise exclusive, because each extraction pass removes what it
matches from the shrinking pool. -/
theorem classifier_mutual_exclusion (env : Env) (pool : List Callable) (a : Callable) :
    (a ∈ gettersSrc env pool →
      a ∉ pipeablesSrc env pool ∧ a ∉ fluentsSrc env pool ∧ a ∉ staticsSrc env pool) ∧
    (a ∈ pipeablesSrc env pool →
      a ∉ gettersSrc env pool ∧ a ∉ fluentsSrc env pool ∧ a ∉ staticsSrc env pool) ∧
    (a ∈ fluentsSrc env pool →
      a ∉ gettersSrc env pool ∧ a ∉ pipeablesSrc env pool ∧ a ∉ staticsSrc env pool) ∧
    (a ∈ staticsSrc env pool →
      a ∉ gettersSrc env pool ∧ a ∉ pipeablesSrc env pool ∧ a ∉ fluentsSrc env pool) := by
  simp only [mem_gettersSrc_iff, mem_pipeablesSrc_iff, mem_fluentsSrc_iff,
    mem_staticsSrc_iff, Option.isSome_iff_ne_none]
  tauto

theorem classifier_mutual_exclusion_witness :
    cGetter ∈ gettersSrc envA [cGetter] ∧
    cGetter ∉ pipeablesSrc envA [cGetter] ∧ cGetter ∉ fluentsSrc envA [cGetter] ∧
    cGetter ∉ staticsSrc envA [cGetter] := by
  have h : gettersSrc envA [cGetter] = [cGetter] := rfl
  have hmem : cGetter ∈ gettersSrc envA [cGetter] := by
    rw [h]
    exact List.mem_singleton.mpr rfl
  exact ⟨hmem, (classifier_mutual_exclusion envA [cGetter] cGetter).1 hmem⟩

/-- C3 counterexample: on a callable passing both the pipeable and the
fluent test, the source pipeline classifies it as pipeable (its fluent
stream is empty), while the claimed order — getters, then fluents, then
pipeables — would classify it as fluent (its pipeable stream is empty):
the sequential order is staticByName, getters, pipeables, fluents, not
the claimed staticByName, getters, fluents, pipeables. -/
theorem partition_order_counterexample :
    (partitionCallables envA [cBoth]).fluents = [] ∧
    (partitionCallablesSpecOrder envA [cBoth]).fluents ≠ [] ∧
    (partitionCallablesSpecOrder envA [cBoth]).pipeables = [] ∧
    (partitionCallables envA [cBoth]).pipeables ≠ [] := by
  refine ⟨rfl, ?_, rfl, ?_⟩
  · have h : (partitionCallablesSpecOrder envA [cBoth]).fluents =
        [{ symbolName := "foo", module := "app/x", typeName := "pkg/T",
           kind := DefKind.const, outputTypeName := none }] := rfl
    rw [h]
    simp
  · have h : (partitionCallables envA [cBoth]).pipeables =
        [{ symbolName := "foo", module := "app/x", typeName := "pkg/T",
           kind := DefKind.const, outputTypeName := none }] := rfl
    rw [h]
    simp

/-- C3 (amended): the mutual-exclusion partition runs sequentially in
the order static-by-name first (claiming every callable whose exported
name starts with a configured static name prefix, regardless of shape),
then getters, then pipeables, then fluents; every callable still
remaining — together with the static-by-name extractions — feeds the
statics/constructor stream. -/
theorem partition_sequential_order (env : Env) (pool : List Callable)
    (constants : List Classified) :
    partitionCallables env pool =
      { staticByName := staticByNameSrc env pool,
        getters := (gettersSrc env pool).filterMap (gettersF env),
        pipeables := (pipeablesSrc env pool).filterMap (pipeablesF env),
        fluents := (fluentsSrc env pool).filterMap (fluentsF env),
        remaining := remainingSrc env pool } ∧
    staticByNameSrc env pool =
      pool.filter (fun a => hasStaticPrefixOn env a.module a.symbolName) ∧
    staticsOf env (partitionCallables env pool) constants =
      ((staticByNameSrc env pool ++ remainingSrc env pool).map (staticCallableF env))
        ++ constants := by
  refine ⟨partitionCallables_eq env pool, ?_, ?_⟩
  · unfold staticByNameSrc
    apply List.filter_congr
    intro a _
    unfold staticByNameF
    by_cases h : hasStaticPrefixOn env a.module a.symbolName = true <;> simp [h]
  · rw [partitionCallables_eq]
    rfl

/-- C9: a single-parameter callable whose return type carries the
boolean flag is never emitted by the getter pass even when its parameter
passes the eligible-namespace getter test; it stays in the pool after
the getter extraction and ends up in a later category — static-by-name,
pipeable, fluent, or the static/constructor leftovers. -/
theorem boolean_getter_excluded (env : Env) (a : Callable)
    (hshape : (getterTypeInformation env a.module a.callSignature).isSome = true)
    (hbool : Nat.land a.callSignature.returnType.flags tsBooleanFlag ≠ 0) :
    gettersF env a = none ∧
    (∀ pool : List Callable, a ∈ pool →
      a ∈ (extractCallables (gettersF env) pool).2) ∧
    (∀ pool : List Callable, a ∈ pool →
      a ∉ gettersSrc env pool ∧
      (a ∈ staticByNameSrc env pool ∨ a ∈ pipeablesSrc env pool ∨
        a ∈ fluentsSrc env pool ∨ a ∈ remainingSrc env pool)) := by
  have hd : decide (Nat.land a.callSignature.returnType.flags tsBooleanFlag = 0)
      = false := by
    simp [hbool]
  have hnone : gettersF env a = none := by
    unfold gettersF
    cases hg : getterTypeInformation env a.module a.callSignature with
    | none => simp [Option.filter]
    | some fp => simp [Option.filter, hd]
  refine ⟨hnone, ?_, ?_⟩
  · intro pool hpool
    rw [extractCallables_eq]
    refine List.mem_filter.mpr ⟨hpool, ?_⟩
    simp [hnone]
  · intro pool hpool
    constructor
    · rw [mem_gettersSrc_iff]
      rintro ⟨-, -, hsome⟩
      rw [hnone] at hsome
      simp at hsome
    · cases hs : staticByNameF env a with
      | some b =>
        exact Or.inl ((mem_staticByNameSrc_iff env pool a).mpr ⟨hpool, by simp [hs]⟩)
      | none =>
        cases hp : pipeablesF env a with
        | some b =>
          exact Or.inr (Or.inl ((mem_pipeablesSrc_iff env pool a).mpr
            ⟨hpool, hs, hnone, by simp [hp]⟩))
        | none =>
          cases hf : fluentsF env a with
          | some b =>
            exact Or.inr (Or.inr (Or.inl ((mem_fluentsSrc_iff env pool a).mpr
              ⟨hpool, hs, hnone, hp, by simp [hf]⟩)))
          | none =>
            exact Or.inr (Or.inr (Or.inr ((mem_remainingSrc_iff env pool a).mpr
              ⟨hpool, hs, hnone, hp, hf⟩)))

theorem boolean_getter_excluded_witness :
    (getterTypeInformation envA cBoolGetter.module cBoolGetter.callSignature).isSome
      = true ∧
    Nat.land cBoolGetter.callSignature.returnType.flags tsBooleanFlag ≠ 0 ∧
    (gettersF envA cBoolGetter = none ∧
      (∀ pool : List Callable, cBoolGetter ∈ pool →
        cBoolGetter ∈ (extractCallables (gettersF envA) pool).2) ∧
      (∀ pool : List Callable, cBoolGetter ∈ pool →
        cBoolGetter ∉ gettersSrc envA pool ∧
        (cBoolGetter ∈ staticByNameSrc envA pool ∨
          cBoolGetter ∈ pipeablesSrc envA pool ∨
          cBoolGetter ∈ fluentsSrc envA pool ∨
          cBoolGetter ∈ remainingSrc envA pool))) :=
  ⟨by decide, by decide,
   boolean_getter_excluded envA cBoolGetter (by decide) (by decide)⟩

/-- C4 counterexample: a callable whose call signature has exactly ONE
parameter is accepted as a fluent candidate (and classified fluent
end-to-end): the source requires one or more parameters, not two or
more. -/
theorem fluent_single_param_counterexample :
    (fluentTypeInformation envA cBoolGetter.module cBoolGetter.callSignature).isSome
      = true ∧
    cBoolGetter.callSignature.params.length = 1 ∧
    cBoolGetter ∈ fluentsSrc envA [cBoolGetter] := by
  refine ⟨by decide, by decide, ?_⟩
  have h : fluentsSrc envA [cBoolGetter] = [cBoolGetter] := rfl
  rw [h]
  exact List.mem_singleton.mpr rfl

/-- C4 (amended): a callable is accepted as a fluent candidate only if
its call signature has one or more parameters, its first parameter's
type is non-callable and resolves to type information whose typeName is
eligible (exported in a configured fluent namespace) for the
declaration's module, and every resolvable final unwound return-type
information has a typeName equal to the first parameter's — when none
resolves, the candidate is still accepted (permissive fallback). -/
theorem fluent_candidate_conditions (env : Env) (module : String)
    (sig : TsSignature)
    (h : (fluentTypeInformation env module sig).isSome = true) :
    1 ≤ sig.params.length ∧
    ∃ nm t info, sig.params.head? = some (nm, t) ∧
      nonFunctionReturnType t = true ∧
      getTypeInformation env.aliases t = some info ∧
      isExportedInFluentNamespace env module t info.typeName = true ∧
      (∀ rt, getTypeInformation env.aliases (getFinalReturnType sig) = some rt →
        rt.typeName = info.typeName) := by
  by_cases hp : sig.params.length ≥ 1
  case neg =>
    unfold fluentTypeInformation at h
    rw [if_neg hp] at h
    simp [Option.filter] at h
  case pos =>
    unfold fluentTypeInformation at h
    rw [if_pos hp] at h
    cases hfp : getFirstParamType env sig with
    | none =>
      rw [hfp] at h
      simp [Option.filter] at h
    | some fp =>
      rw [hfp] at h
      by_cases hex : isExportedInFluentNamespace env module fp.type fp.typeName = true
      · have hq : Option.filter
            (fun a => isExportedInFluentNamespace env module a.type a.typeName)
            (some fp) = some fp := by
          simp [Option.filter, hex]
        rw [hq] at h
        simp only [Option.map_some'] at h
        obtain ⟨nm, t, hh, hnf, hti⟩ := getFirstParamType_eq_some hfp
        have htype : fp.type = t := getTypeInformation_type hti
        refine ⟨hp, nm, t, fp, hh, hnf, hti, by rw [← htype]; exact hex, ?_⟩
        intro rt hrt
        rw [hrt] at h
        by_cases hpred : (rt.typeName == fp.typeName) = true
        · simpa using hpred
        · exfalso
          simp [Option.filter, hpred] at h
      · have hq : Option.filter
            (fun a => isExportedInFluentNamespace env module a.type a.typeName)
            (some fp) = none := by
          simp [Option.filter, hex]
        rw [hq] at h
        simp [Option.filter] at h

theorem fluent_candidate_conditions_witness :
    (fluentTypeInformation envA "app/x" sigOuter).isSome = true ∧
    (1 ≤ sigOuter.params.length ∧
      ∃ nm t info, sigOuter.params.head? = some (nm, t) ∧
        nonFunctionReturnType t = true ∧
        getTypeInformation envA.aliases t = some info ∧
        isExportedInFluentNamespace envA "app/x" t info.typeName = true ∧
        (∀ rt, getTypeInformation envA.aliases (getFinalReturnType sigOuter) = some rt →
          rt.typeName = info.typeName)) :=
  ⟨by decide, fluent_candidate_conditions envA "app/x" sigOuter (by decide)⟩

/-- C5: a callable is accepted by the pipeable pass exactly when its
return type exposes at least one call signature that independently
passes the getter test, and the emitted pipeable's subject typeName is
the typeName of the first such signature's sole parameter's type. -/
theorem pipeable_characterization (env : Env) (a : Callable) :
    ((pipeablesF env a).isSome = true ↔
      ∃ s ∈ a.returnType.callSignatures,
        (getterTypeInformation env a.module s).isSome = true) ∧
    (∀ out, pipeablesF env a = some out →
      ∃ s fp nm t, pipeableSignature env a.module a.returnType = some s ∧
        s.params.head? = some (nm, t) ∧
        getTypeInformation env.aliases t = some fp ∧
        out.typeName = fp.typeName) := by
  have hchain : ∀ s, pipeableSignature env a.module a.returnType = some s →
      ∃ fp nm t, s.params.head? = some (nm, t) ∧
        getTypeInformation env.aliases t = some fp ∧
        isExportedInFluentNamespace env a.module fp.type fp.typeName = true := by
    intro s hs
    have hg : (getterTypeInformation env a.module s).isSome = true := by
      unfold pipeableSignature at hs
      have := List.find?_some hs
      simpa [isPipeableSignature] using this
    obtain ⟨fp, hfp⟩ := Option.isSome_iff_exists.mp hg
    obtain ⟨hlen, hret, hfirst, hex⟩ := getterTypeInformation_eq_some hfp
    obtain ⟨nm, t, hh, hnf, hti⟩ := getFirstParamType_eq_some hfirst
    exact ⟨fp, nm, t, hh, hti, hex⟩
  constructor
  · constructor
    · intro hsome
      cases hps : pipeableSignature env a.module a.returnType with
      | none =>
        unfold pipeablesF at hsome
        rw [hps] at hsome
        simp [Option.filter] at hsome
      | some s =>
        have hps' := hps
        unfold pipeableSignature at hps'
        refine ⟨s, List.mem_of_find?_eq_some hps', ?_⟩
        have := List.find?_some hps'
        simpa [isPipeableSignature] using this
    · rintro ⟨s, hsmem, hgs⟩
      have hfs : (a.returnType.callSignatures.find?
          (isPipeableSignature env a.module)).isSome = true :=
        List.find?_isSome.mpr ⟨s, hsmem, by simp [isPipeableSignature, hgs]⟩
      obtain ⟨s₀, hs₀⟩ := Option.isSome_iff_exists.mp hfs
      have hps : pipeableSignature env a.module a.returnType = some s₀ := by
        unfold pipeableSignature
        exact hs₀
      obtain ⟨fp, nm, t, hh, hti, hex⟩ := hchain s₀ hps
      unfold pipeablesF
      rw [hps]
      simp [Option.filter, hh, hti, hex]
  · intro out hout
    unfold pipeablesF at hout
    rw [Option.map_eq_some'] at hout
    obtain ⟨self, hfil, hmk⟩ := hout
    rw [Option.filter_eq_some] at hfil
    obtain ⟨hbind, hex⟩ := hfil
    rw [Option.mem_def] at hbind
    rw [Option.bind_eq_some] at hbind
    obtain ⟨s, hs, hrest⟩ := hbind
    rw [Option.bind_eq_some] at hrest
    obtain ⟨t', ht', hgti⟩ := hrest
    rw [Option.map_eq_some'] at ht'
    obtain ⟨p, hp, hpt⟩ := ht'
    rw [← hpt] at hgti
    refine ⟨s, self, p.1, p.2, hs, by simp [hp], hgti, ?_⟩
    rw [← hmk]

theorem pipeable_characterization_witness :
    (pipeablesF envA cBoth).isSome = true ∧
    (((pipeablesF envA cBoth).isSome = true ↔
      ∃ s ∈ cBoth.returnType.callSignatures,
        (getterTypeInformation envA cBoth.module s).isSome = true) ∧
     (∀ out, pipeablesF envA cBoth = some out →
       ∃ s fp nm t, pipeableSignature envA cBoth.module cBoth.returnType = some s ∧
         s.params.head? = some (nm, t) ∧
         getTypeInformation envA.aliases t = some fp ∧
         out.typeName = fp.typeName)) :=
  ⟨by decide, pipeable_characterization envA cBoth⟩

end TG
